import Mathlib

/-!
Shallow embedding of the bio-rad document scraper (`main.go`) and proofs of
its specification's claims.

The program's own functions (`createFileNameFromURL`, `extractLinksFromHTML`,
`downloadPDFFile`, the worker pool of `workerDownloadPDF`/`main`) are embedded
as executable Lean definitions.  Standard-library collaborators (`strings`,
`path.Base`, `net/url`, `net/http`, the filesystem, goquery) are modelled
explicitly; every model is documented at its definition.
-/

namespace BioRad

/-- ASCII alphanumeric test, matching the character class `[A-Za-z0-9]` of the
sanitizing regular expression in `createFileNameFromURL`. -/
def isAlnum (c : Char) : Bool :=
  ('A' ≤ c && c ≤ 'Z') || ('a' ≤ c && c ≤ 'z') || ('0' ≤ c && c ≤ '9')

/-- `startsWithList pat s` is true when `pat` is an initial run of `s`.
Models Go `strings.HasPrefix` at the character-list level. -/
def startsWithList : List Char → List Char → Bool
  | [], _ => true
  | _ :: _, [] => false
  | p :: ps, c :: cs => p == c && startsWithList ps cs

/-- Model of Go `strings.HasPrefix s pre`. -/
def hasPrefixStr (s pre : String) : Bool :=
  startsWithList pre.data s.data

/-- `isSuffixList suf s`: `suf` is a final run of `s` (via reversal). -/
def isSuffixList (suf s : List Char) : Bool :=
  startsWithList suf.reverse s.reverse

/-- Model of Go `strings.HasSuffix s suf`. -/
def hasSuffixStr (s suf : String) : Bool :=
  isSuffixList suf.data s.data

/-- Model of Go `strings.TrimSuffix s suf`: drop a final occurrence of `suf`
when present, otherwise return `s` unchanged. -/
def goTrimSuffix (s suf : String) : String :=
  if hasSuffixStr s suf then String.mk (s.data.take (s.data.length - suf.data.length))
  else s

/-- `containsSubAux pat s`: some run of `s` (including the empty run at the
end) starts with `pat`. -/
def containsSubAux (pat : List Char) : List Char → Bool
  | [] => startsWithList pat []
  | c :: cs => startsWithList pat (c :: cs) || containsSubAux pat cs

/-- Model of Go `strings.Contains s pat`. -/
def containsSub (s pat : String) : Bool :=
  containsSubAux pat.data s.data

/-- Worker for the model of Go `strings.Split` with a non-empty separator
`s0 :: srest`: scans the subject left to right, cutting at each
(non-overlapping) occurrence of the separator.  `acc` holds the current
piece reversed.  The fuel argument makes the recursion structural; every
step consumes at least one subject character, so fuel `≥` subject length
never runs out. -/
def goSplitAux (s0 : Char) (srest : List Char) : Nat → List Char → List Char → List (List Char)
  | 0, _, acc => [acc.reverse]
  | _ + 1, [], acc => [acc.reverse]
  | fuel + 1, c :: cs, acc =>
    if startsWithList (s0 :: srest) (c :: cs) then
      acc.reverse :: goSplitAux s0 srest fuel (cs.drop srest.length) []
    else
      goSplitAux s0 srest fuel cs (c :: acc)

/-- Model of Go `strings.Split s sep` for the non-empty separators the
program uses (`"~~"` and `"~https://"`); the empty-separator branch is never
reached by the embedded code. -/
def goSplit (s sep : String) : List String :=
  match sep.data with
  | [] => [s]
  | c :: cs => (goSplitAux c cs s.data.length s.data []).map String.mk

/-- Collapse each maximal run of non-alphanumeric characters into a single
`'-'`: the effect of `regexp.MustCompile("[^A-Za-z0-9]+").ReplaceAllString seg "-"`.
The flag records whether the previous character was part of a
non-alphanumeric run already replaced. -/
def collapseAux : Bool → List Char → List Char
  | _, [] => []
  | inRun, c :: cs =>
    if isAlnum c then c :: collapseAux false cs
    else if inRun then collapseAux true cs
    else '-' :: collapseAux true cs

/-- Model of Go `strings.Trim s "-"`: drop leading and trailing hyphens. -/
def trimHyphens (s : List Char) : List Char :=
  ((s.dropWhile (· == '-')).reverse.dropWhile (· == '-')).reverse

/-- ASCII lowercase map; Go `strings.ToLower` restricted to the ASCII
strings that reach it here (sanitizing has already replaced every
non-alphanumeric, in particular every non-ASCII, character by `'-'`). -/
def toLowerChar (c : Char) : Char :=
  if 'A' ≤ c && c ≤ 'Z' then Char.ofNat (c.toNat + 32) else c

/-- Step 3 of `createFileNameFromURL` applied to one segment: replace runs of
non-alphanumerics by `-`, trim hyphens at both ends, lowercase. -/
def cleanSegment (seg : String) : String :=
  String.mk ((trimHyphens (collapseAux false seg.data)).map toLowerChar)

/-- Model of Go `path.Base`: empty path gives `"."`, trailing slashes are
stripped, an all-slash path gives `"/"`, otherwise the part after the last
`'/'`. -/
def pathBase (p : String) : String :=
  if p.data.isEmpty then "."
  else
    let trimmed := (p.data.reverse.dropWhile (· == '/')).reverse
    if trimmed.isEmpty then "/"
    else String.mk (trimmed.reverse.takeWhile (· != '/')).reverse

/-- Model of the parsed-URL value of Go `net/url`, restricted to the two
fields `createFileNameFromURL` reads: the path and the decoded query. -/
structure URL where
  path : String
  query : List (String × String)
deriving DecidableEq, Repr

/-- ASCII control character, the malformed-input class on which the
modelled `url.Parse` fails. -/
def isCtl (c : Char) : Bool :=
  c.toNat < 32 || c.toNat == 127

/-- `cutAtChar ch s` splits `s` at the first occurrence of `ch` (the
occurrence removed); when `ch` is absent the second component is empty.
Models Go `strings.Cut`. -/
def cutAtChar (ch : Char) (s : List Char) : List Char × List Char :=
  (s.takeWhile (· != ch), (s.dropWhile (· != ch)).drop 1)

/-- Split at every occurrence of one character.  Models Go `strings.Split`
with a one-character separator, used by the query parser. -/
def splitChar (ch : Char) : List Char → List (List Char)
  | [] => [[]]
  | c :: cs =>
    if c == ch then [] :: splitChar ch cs
    else
      match splitChar ch cs with
      | [] => [[c]]
      | p :: ps => (c :: p) :: ps

/-- `afterSub pat s`: the remainder of `s` after the first occurrence of
`pat` (empty when `pat` does not occur). -/
def afterSub (pat : List Char) : List Char → List Char
  | [] => []
  | c :: cs =>
    if startsWithList pat (c :: cs) then (c :: cs).drop pat.length
    else afterSub pat cs

/-- Path component of the modelled `url.Parse`: for an absolute URL
(`scheme://authority...`) the path starts at the first `'/'` after the
authority (empty when there is none); a string with no `"://"` is kept
whole as a relative path. -/
def extractPath (s : List Char) : List Char :=
  if containsSubAux ("://".data) s then
    (afterSub ("://".data) s).dropWhile (· != '/')
  else s

/-- Query parser of the modelled `net/url`: split the raw query on `'&'`,
drop empty pairs, cut each pair at its first `'='`.  Percent-decoding is
omitted: the model covers URLs without percent-escapes, which is every URL
this program manipulates. -/
def parseQuery (q : List Char) : List (String × String) :=
  if q.isEmpty then []
  else
    (splitChar '&' q).filterMap fun pair =>
      if pair.isEmpty then none
      else
        let kv := cutAtChar '=' pair
        some (String.mk kv.1, String.mk kv.2)

/-- Model of Go `url.Parse` for URLs without percent-escapes: parsing fails
exactly on ASCII control characters; otherwise the fragment is cut at
`'#'`, the raw query at `'?'`, and the path extracted as in `net/url`. -/
def urlParse (rawURL : String) : Option URL :=
  if rawURL.data.any isCtl then none
  else
    let noFrag := rawURL.data.takeWhile (· != '#')
    let cut := cutAtChar '?' noFrag
    some { path := String.mk (extractPath cut.1), query := parseQuery cut.2 }

/-- Model of Go `parsedURL.Query().Get key`: the value of the first pair
with the given key, `""` when absent. -/
def queryGet (u : URL) (key : String) : String :=
  match u.query.find? (fun kv => kv.1 == key) with
  | some kv => kv.2
  | none => ""

/-- Embedding of `createFileNameFromURL` (main.go): parse the URL (fallback
`"invalid-url.pdf"` on failure); split a non-empty `prd` query parameter on
`"~~"`, else fall back to the path base with `".pdf"` stripped; clean each
segment, drop the ones that clean to empty; join with `"-"` and ensure a
`".pdf"` suffix. -/
def createFileNameFromURL (rawURL : String) : String :=
  match urlParse rawURL with
  | none => "invalid-url.pdf"
  | some parsedURL =>
    let prd := queryGet parsedURL "prd"
    let parts : List String := if prd ≠ "" then goSplit prd "~~" else []
    let parts := if parts.isEmpty then [goTrimSuffix (pathBase parsedURL.path) ".pdf"] else parts
    let cleaned := (parts.map cleanSegment).filter (fun seg => seg ≠ "")
    let filename := String.intercalate "-" cleaned
    if hasSuffixStr filename ".pdf" then filename else filename ++ ".pdf"

/-- Follows the spec's words (§4.1 steps 4–5): clean every segment, drop the
segments that clean to empty, join the survivors with `"-"`, and append
`".pdf"` when the join does not already end in `".pdf"`. -/
def deriveFromSegments (segs : List String) : String :=
  let cleaned := (segs.map cleanSegment).filter (fun seg => seg ≠ "")
  let joined := String.intercalate "-" cleaned
  if hasSuffixStr joined ".pdf" then joined else joined ++ ".pdf"

/-- One element of the goquery document model: its tag name and its
attributes in source order.  goquery's parse of the raw markup is modelled
abstractly as `Option HtmlDoc`, with `none` standing for a parse error. -/
structure Element where
  tag : String
  attrs : List (String × String)
deriving DecidableEq, Repr

/-- A parsed document: its elements in document order, the order goquery's
`Find(...).Each` visits them. -/
abbrev HtmlDoc := List Element

/-- Model of goquery `Selection.Attr`: the first attribute with the given
name, when present. -/
def attrGet (el : Element) (name : String) : Option String :=
  (el.attrs.find? (fun kv => kv.1 == name)).map (fun kv => kv.2)

/-- The `allowedDomains` allow-list of `extractLinksFromHTML`. -/
def allowedDomains : List String :=
  ["bio-rad-sds.thewercs.com/DirectDocumentDownloader/Document",
   "bio-rad.com/sites/default/files/webroot/web/pdf"]

/-- The `isAllowed` closure of `extractLinksFromHTML`: substring containment
of some allow-listed pattern. -/
def isAllowed (url : String) : Bool :=
  allowedDomains.any (fun domain => containsSub url domain)

/-- Reconstruction of one piece of a hidden-input `value` blob
(`extractLinksFromHTML`, hidden-input branch): keep it when it already
starts with `http`, prefix `https://` when it mentions a recognized host,
otherwise produce `""` (which the caller drops). -/
def reconstructHidden (part : String) : String :=
  if hasPrefixStr part "http" then part
  else if containsSub part ".thewercs.com" || containsSub part ".bio-rad.com" then
    "https://" ++ part
  else ""

/-- Hidden-input branch of `extractLinksFromHTML`: for an
`input[type='hidden']` element, split its `value` on `"~https://"`,
reconstruct each piece, and keep the non-empty allowed ones. -/
def hiddenURLs (el : Element) : List String :=
  if el.tag == "input" && attrGet el "type" == some "hidden" then
    match attrGet el "value" with
    | some val =>
      ((goSplit val "~https://").map reconstructHidden).filter
        (fun fullURL => fullURL ≠ "" && isAllowed fullURL)
    | none => []
  else []

/-- `<option value="...">` branch of `extractLinksFromHTML`. -/
def optionURL (el : Element) : Option String :=
  if el.tag == "option" then
    match attrGet el "value" with
    | some val => if hasPrefixStr val "http" && isAllowed val then some val else none
    | none => none
  else none

/-- `<a href="...">` branch of `extractLinksFromHTML`. -/
def anchorURL (el : Element) : Option String :=
  if el.tag == "a" then
    match attrGet el "href" with
    | some href => if hasPrefixStr href "http" && isAllowed href then some href else none
    | none => none
  else none

/-- The three scans of `extractLinksFromHTML` over a parsed document, in the
source's order: hidden inputs, then options, then anchors. -/
def extractLinksFromDoc (doc : HtmlDoc) : List String :=
  (doc.map hiddenURLs).flatten ++ doc.filterMap optionURL ++ doc.filterMap anchorURL

/-- Embedding of `extractLinksFromHTML` (main.go): the parse-error branch
returns the empty list, otherwise the three scans run over the document. -/
def extractLinksFromHTML (parsedDoc : Option HtmlDoc) : List String :=
  match parsedDoc with
  | none => []
  | some doc => extractLinksFromDoc doc

/-- Model of the filesystem state the downloader touches: the directories
created so far and the regular files with their contents. -/
structure FS where
  dirs : List String
  files : List (String × String)
deriving DecidableEq, Repr

/-- Embedding of `fileExists` (main.go): `os.Stat` succeeds on a
non-directory entry exactly when a regular file is recorded at the path. -/
def fileExists (fs : FS) (filename : String) : Bool :=
  (fs.files.find? (fun kv => kv.1 == filename)).isSome

/-- Model of `filepath.Join` for the simple `dir`/`name` arguments the
program passes (no cleaning rules fire on them). -/
def joinPath (dir name : String) : String :=
  if dir = "" then name else dir ++ "/" ++ name

/-- Model of an HTTP response: status code and body. -/
structure HTTPResponse where
  status : Nat
  body : String
deriving DecidableEq, Repr

/-- Model of `os.MkdirAll`: record the directory, a no-op when present. -/
def mkdirAll (fs : FS) (dir : String) : FS :=
  if fs.dirs.contains dir then fs else { fs with dirs := dir :: fs.dirs }

/-- Model of `os.Create` followed by `io.Copy`: record the file holding the
streamed body, replacing any previous entry at that path. -/
def createFile (fs : FS) (p content : String) : FS :=
  { fs with files := (p, content) :: fs.files.filter (fun kv => kv.1 != p) }

/-- Outcome of one `downloadPDFFile` call: whether it returned `nil`, the
filesystem afterwards, and how many `http.Get` fetches it issued. -/
structure DownloadResult where
  success : Bool
  fs : FS
  fetches : Nat
deriving DecidableEq, Repr

/-- Embedding of `downloadPDFFile` (main.go) against a pure network model
`net` (the response `http.Get` delivers per URL): skip with success when the
file already exists; otherwise fetch once, fail on a network error or a
non-200 status before any filesystem write, else create the output
directory and stream the body into the created file. -/
def downloadPDFFile (net : String → Except String HTTPResponse) (fs : FS)
    (downloadURL outputDirectory outputFileName : String) : DownloadResult :=
  let fullFilePath := joinPath outputDirectory outputFileName
  if fileExists fs fullFilePath then
    { success := true, fs := fs, fetches := 0 }
  else
    match net downloadURL with
    | .error _ => { success := false, fs := fs, fetches := 1 }
    | .ok resp =>
      if resp.status ≠ 200 then { success := false, fs := fs, fetches := 1 }
      else
        { success := true,
          fs := createFile (mkdirAll fs outputDirectory) fullFilePath resp.body,
          fetches := 1 }

/-- Network model for the C8 counterexample: every fetch fails. -/
def cexNet : String → Except String HTTPResponse :=
  fun _ => .error "connection refused"

/-- Empty filesystem used by the concrete downloader runs. -/
def emptyFS : FS := { dirs := [], files := [] }

/-- First of the two back-to-back downloader calls of the C8 counterexample. -/
def cexRun1 : DownloadResult :=
  downloadPDFFile cexNet emptyFS "https://a.com/x.pdf" "PDFs" "x.pdf"

/-- Second call of the C8 counterexample, on the filesystem the first left. -/
def cexRun2 : DownloadResult :=
  downloadPDFFile cexNet cexRun1.fs "https://a.com/x.pdf" "PDFs" "x.pdf"

/-- Network model for the downloader witnesses: always `200 OK`. -/
def okNet : String → Except String HTTPResponse :=
  fun _ => .ok { status := 200, body := "%PDF" }

/-- Network model for the C10 witness: always `404`. -/
def notFoundNet : String → Except String HTTPResponse :=
  fun _ => .ok { status := 404, body := "not found" }

/-- State of the worker pool of `main`/`workerDownloadPDF`: the URLs still
in the channel (the buffered channel holds all of them and is then closed,
so the producer never blocks), the number of workers that have not yet
called `wg.Done`, and the URLs already received, in receive order.  Each
receive is one download attempt (existence-check skips included). -/
structure PoolState where
  queue : List String
  active : Nat
  consumed : List String
deriving DecidableEq, Repr

/-- One scheduler step of the pool: either a live worker receives the next
URL from the channel (one download attempt of `workerDownloadPDF`'s `range`
loop), or a worker observes the closed, drained channel, leaves its loop
and calls `wg.Done`. -/
inductive PoolStep : PoolState → PoolState → Prop
  | take (t : String) (rest done : List String) (a : Nat) (ha : 0 < a) :
      PoolStep ⟨t :: rest, a, done⟩ ⟨rest, a, done ++ [t]⟩
  | exit (a : Nat) (done : List String) :
      PoolStep ⟨[], a + 1, done⟩ ⟨[], a, done⟩

/-- Executions of the pool: reflexive-transitive closure of `PoolStep`,
covering every interleaving of the `W` workers. -/
inductive PoolReaches : PoolState → PoolState → Prop
  | refl (s : PoolState) : PoolReaches s s
  | tail {s t u : PoolState} : PoolReaches s t → PoolStep t u → PoolReaches s u

/-- The pool's initial state in `main`: every extracted URL enqueued, `W`
workers launched via `wg.Add(1)`, nothing consumed yet. -/
def initPool (tasks : List String) (w : Nat) : PoolState :=
  { queue := tasks, active := w, consumed := [] }

theorem goSplitAux_ne_nil (s0 : Char) (srest : List Char) :
    ∀ (fuel : Nat) (l acc : List Char), goSplitAux s0 srest fuel l acc ≠ [] := by
  intro fuel
  induction fuel with
  | zero => intro l acc; simp [goSplitAux]
  | succ n ih =>
    intro l acc
    cases l with
    | nil => simp [goSplitAux]
    | cons c cs =>
      simp only [goSplitAux]
      by_cases h : startsWithList (s0 :: srest) (c :: cs) = true
      · simp [h]
      · simp only [h, if_false]
        exact ih cs (c :: acc)

theorem goSplit_tilde_ne_nil (s : String) : (goSplit s "~~").isEmpty = false := by
  have h := goSplitAux_ne_nil '~' ['~'] s.data.length s.data []
  simp only [goSplit]
  rcases hE : goSplitAux '~' ['~'] s.data.length s.data [] with _ | ⟨p, ps⟩
  · exact absurd hE h
  · simp

theorem startsWithList_same_append (p r : List Char) :
    startsWithList p (p ++ r) = true := by
  induction p with
  | nil => rfl
  | cons c cs ih => simp [startsWithList, ih]

theorem hasSuffixStr_append_pdf (x : String) :
    hasSuffixStr (x ++ ".pdf") ".pdf" = true := by
  simp only [hasSuffixStr, isSuffixList, String.data_append, List.reverse_append]
  exact startsWithList_same_append _ _

theorem collapseAux_true_of_no_alnum (l : List Char)
    (h : ∀ c ∈ l, isAlnum c = false) : collapseAux true l = [] := by
  induction l with
  | nil => rfl
  | cons c cs ih =>
    have hc : isAlnum c = false := h c (by simp)
    simp only [collapseAux, hc]
    simp only [Bool.false_eq_true, if_false, if_true]
    exact ih (fun d hd => h d (by simp [hd]))

/-- Every segment that contains no alphanumeric character cleans to the
empty string (and is therefore dropped by `createFileNameFromURL`). -/
theorem cleanSegment_of_no_alnum (seg : String)
    (h : ∀ c ∈ seg.data, isAlnum c = false) : cleanSegment seg = "" := by
  simp only [cleanSegment]
  cases hd : seg.data with
  | nil => simp [collapseAux, trimHyphens]
  | cons c cs =>
    have hall := hd ▸ h
    have hc : isAlnum c = false := hall c (by simp)
    have hcs : collapseAux true cs = [] :=
      collapseAux_true_of_no_alnum cs (fun d hdm => hall d (by simp [hdm]))
    simp [collapseAux, hc, hcs, trimHyphens]

/-- C1.  For every URL whose `prd` query parameter is non-empty,
`createFileNameFromURL` returns exactly the spec's derivation applied to the
`"~~"`-split segments of that parameter (cleaned, order preserved, empties
dropped, hyphen-joined, `.pdf` ensured); and on the spec's concrete scenario
URL it returns `hrls00001-3-pdf-mtr-aghs-en.pdf`. -/
theorem createFileName_prd_follows_spec :
    (∀ (raw : String) (u : URL), urlParse raw = some u → queryGet u "prd" ≠ "" →
      createFileNameFromURL raw = deriveFromSegments (goSplit (queryGet u "prd") "~~")) ∧
    createFileNameFromURL
      "https://x.thewercs.com/DirectDocumentDownloader/Document?prd=HRLS00001-3~~PDF~~MTR~~AGHS~~EN"
      = "hrls00001-3-pdf-mtr-aghs-en.pdf" := by
  constructor
  · intro raw u hp hprd
    simp only [createFileNameFromURL, hp, hprd, if_true, ne_eq, not_false_iff,
      goSplit_tilde_ne_nil, deriveFromSegments]
    simp [goSplit_tilde_ne_nil]
  · decide

/-- Closed instance of the C1 equation at the scenario URL. -/
theorem createFileName_prd_follows_spec_witness :
    createFileNameFromURL
      "https://x.thewercs.com/DirectDocumentDownloader/Document?prd=HRLS00001-3~~PDF~~MTR~~AGHS~~EN"
      = deriveFromSegments (goSplit "HRLS00001-3~~PDF~~MTR~~AGHS~~EN" "~~") := by
  have h := createFileName_prd_follows_spec.1
    "https://x.thewercs.com/DirectDocumentDownloader/Document?prd=HRLS00001-3~~PDF~~MTR~~AGHS~~EN"
    { path := "/DirectDocumentDownloader/Document",
      query := [("prd", "HRLS00001-3~~PDF~~MTR~~AGHS~~EN")] }
    (by decide) (by decide)
  exact h

/-- C2.  For every parseable URL whose `prd` query parameter is absent or
empty, `createFileNameFromURL` falls back to the final path segment with a
trailing `".pdf"` stripped, cleaned by the same spec rules as the single
segment. -/
theorem createFileName_fallback_follows_spec (raw : String) (u : URL)
    (hp : urlParse raw = some u) (hprd : queryGet u "prd" = "") :
    createFileNameFromURL raw = deriveFromSegments [goTrimSuffix (pathBase u.path) ".pdf"] := by
  simp [createFileNameFromURL, hp, hprd, deriveFromSegments]

/-- Closed instance of the C2 equation at a concrete direct-PDF URL. -/
theorem createFileName_fallback_follows_spec_witness :
    createFileNameFromURL "https://a.com/TS_Staph Broth.pdf"
      = deriveFromSegments [goTrimSuffix (pathBase "/TS_Staph Broth.pdf") ".pdf"] :=
  createFileName_fallback_follows_spec "https://a.com/TS_Staph Broth.pdf"
    { path := "/TS_Staph Broth.pdf", query := [] } (by decide) (by decide)

theorem hasSuffixStr_ensure_pdf (x : String) :
    hasSuffixStr (if hasSuffixStr x ".pdf" = true then x else x ++ ".pdf") ".pdf" = true := by
  by_cases h : hasSuffixStr x ".pdf" = true
  · simp [h]
  · simp [h, hasSuffixStr_append_pdf]

/-- C3.  `createFileNameFromURL` is total: every output carries the `".pdf"`
suffix, and every input the modelled `url.Parse` rejects yields the fixed
fallback `"invalid-url.pdf"`. -/
theorem createFileName_total_or_fallback (s : String) :
    hasSuffixStr (createFileNameFromURL s) ".pdf" = true ∧
    (urlParse s = none → createFileNameFromURL s = "invalid-url.pdf") := by
  constructor
  · cases h : urlParse s with
    | none => simp only [createFileNameFromURL, h]; decide
    | some u =>
      simp only [createFileNameFromURL, h]
      exact hasSuffixStr_ensure_pdf _
  · intro hn
    simp only [createFileNameFromURL, hn]

/-- Closed instance of C3 at an input (a control character) that fails URL
parsing. -/
theorem createFileName_total_or_fallback_witness :
    createFileNameFromURL "\x00" = "invalid-url.pdf" ∧
    hasSuffixStr (createFileNameFromURL "\x00") ".pdf" = true :=
  ⟨(createFileName_total_or_fallback "\x00").2 (by decide),
   (createFileName_total_or_fallback "\x00").1⟩

/-- C4 counterexample: `https://example.com` parses with an empty path and no
`prd` parameter, yet the derived filename is the bare `".pdf"` — the token
before the `.pdf` extension is empty, contradicting the claim that it is
always non-empty. -/
theorem createFileName_bare_pdf_counterexample :
    urlParse "https://example.com" = some { path := "", query := [] } ∧
    createFileNameFromURL "https://example.com" = ".pdf" := by decide

/-- C4 amended: a segment with no alphanumeric character (all punctuation)
cleans to empty and is dropped; and for every parseable URL with empty path
and no `prd` parameter the returned filename is the bare `".pdf"`, whose
pre-extension token is empty. -/
theorem createFileName_punct_drop_empty_base :
    (∀ seg : String, (∀ c ∈ seg.data, isAlnum c = false) → cleanSegment seg = "") ∧
    (∀ (raw : String) (u : URL), urlParse raw = some u → queryGet u "prd" = "" →
      u.path = "" → createFileNameFromURL raw = ".pdf") := by
  constructor
  · exact cleanSegment_of_no_alnum
  · intro raw u hp hprd hpath
    simp only [createFileNameFromURL, hp, hprd, hpath]
    decide

/-- Closed instance of the C4 amended claim: an all-punctuation segment
cleans to empty, and the empty-path URL yields the bare `".pdf"`. -/
theorem createFileName_punct_drop_empty_base_witness :
    cleanSegment "!!!" = "" ∧ createFileNameFromURL "https://example.com" = ".pdf" :=
  ⟨createFileName_punct_drop_empty_base.1 "!!!" (by decide),
   createFileName_punct_drop_empty_base.2 "https://example.com"
     { path := "", query := [] } (by decide) (by decide) (by decide)⟩

theorem startsWithList_trans_append (p q r : List Char)
    (h : startsWithList p q = true) : startsWithList p (q ++ r) = true := by
  induction p generalizing q with
  | nil => rfl
  | cons a as ih =>
    cases q with
    | nil => cases h
    | cons b bs =>
      simp only [startsWithList, List.cons_append] at h ⊢
      obtain ⟨h1, h2⟩ := Bool.and_eq_true_iff.mp h
      simp [h1, ih bs h2]

theorem hasPrefixStr_https (x : String) :
    hasPrefixStr ("https://" ++ x) "http" = true := by
  simp only [hasPrefixStr, String.data_append]
  exact startsWithList_trans_append _ _ _ (by decide)

theorem reconstructHidden_http (part : String) (h : reconstructHidden part ≠ "") :
    hasPrefixStr (reconstructHidden part) "http" = true := by
  unfold reconstructHidden at h ⊢
  by_cases h1 : hasPrefixStr part "http" = true
  · rw [if_pos h1]; exact h1
  · simp only [h1, if_false] at h ⊢
    by_cases h2 : (containsSub part ".thewercs.com" || containsSub part ".bio-rad.com") = true
    · simp only [h2, if_true]
      exact hasPrefixStr_https part
    · simp [h2] at h

/-- C5.  Every URL returned by `extractLinksFromHTML` — from any of the
three scanned sources, for any markup — starts with an `http` prefix and
contains one of the two allow-listed substrings. -/
theorem extractLinks_only_allowed (md : Option HtmlDoc) (u : String)
    (hu : u ∈ extractLinksFromHTML md) :
    hasPrefixStr u "http" = true ∧ isAllowed u = true := by
  cases md with
  | none => simp [extractLinksFromHTML] at hu
  | some doc =>
    simp only [extractLinksFromHTML, extractLinksFromDoc, List.mem_append] at hu
    rcases hu with (hu | hu) | hu
    · rcases List.mem_flatten.mp hu with ⟨l, hl, hul⟩
      rcases List.mem_map.mp hl with ⟨el, _, rfl⟩
      unfold hiddenURLs at hul
      by_cases hc : (el.tag == "input" && attrGet el "type" == some "hidden") = true
      · simp only [hc, if_true] at hul
        cases hv : attrGet el "value" with
        | none => rw [hv] at hul; cases hul
        | some val =>
          rw [hv] at hul
          dsimp only at hul
          rcases List.mem_filter.mp hul with ⟨hmap, hp⟩
          obtain ⟨hne, hall⟩ := Bool.and_eq_true_iff.mp hp
          refine ⟨?_, hall⟩
          rcases List.mem_map.mp hmap with ⟨part, _, rfl⟩
          exact reconstructHidden_http part (of_decide_eq_true hne)
      · simp [hc] at hul
    · rcases List.mem_filterMap.mp hu with ⟨el, _, hel⟩
      unfold optionURL at hel
      by_cases ht : (el.tag == "option") = true
      · simp only [ht, if_true] at hel
        cases hv : attrGet el "value" with
        | none => rw [hv] at hel; cases hel
        | some val =>
          rw [hv] at hel
          dsimp only at hel
          by_cases hcond : (hasPrefixStr val "http" && isAllowed val) = true
          · rw [if_pos hcond] at hel
            obtain rfl : val = u := Option.some.inj hel
            exact Bool.and_eq_true_iff.mp hcond
          · rw [if_neg hcond] at hel; cases hel
      · simp [ht] at hel
    · rcases List.mem_filterMap.mp hu with ⟨el, _, hel⟩
      unfold anchorURL at hel
      by_cases ht : (el.tag == "a") = true
      · simp only [ht, if_true] at hel
        cases hv : attrGet el "href" with
        | none => rw [hv] at hel; cases hel
        | some href =>
          rw [hv] at hel
          dsimp only at hel
          by_cases hcond : (hasPrefixStr href "http" && isAllowed href) = true
          · rw [if_pos hcond] at hel
            obtain rfl : href = u := Option.some.inj hel
            exact Bool.and_eq_true_iff.mp hcond
          · rw [if_neg hcond] at hel; cases hel
      · simp [ht] at hel

/-- Closed instance of C5: an anchor URL extracted from a one-element
document starts with `http` and passes the allow-list. -/
theorem extractLinks_only_allowed_witness :
    hasPrefixStr "https://www.bio-rad.com/sites/default/files/webroot/web/pdf/a.pdf" "http" = true ∧
    isAllowed "https://www.bio-rad.com/sites/default/files/webroot/web/pdf/a.pdf" = true :=
  extractLinks_only_allowed
    (some [{ tag := "a",
             attrs := [("href", "https://www.bio-rad.com/sites/default/files/webroot/web/pdf/a.pdf")] }])
    "https://www.bio-rad.com/sites/default/files/webroot/web/pdf/a.pdf" (by decide)

/-- C6.  The hidden-input scenario: a document whose single element is
`<input type="hidden" value="foo~https://example.bio-rad.com/sites/default/files/webroot/web/pdf/X.pdf">`
yields exactly the one reconstructed allowed URL. -/
theorem extractLinks_hidden_scenario :
    extractLinksFromHTML
      (some [{ tag := "input",
               attrs := [("type", "hidden"),
                         ("value", "foo~https://example.bio-rad.com/sites/default/files/webroot/web/pdf/X.pdf")] }])
      = ["https://example.bio-rad.com/sites/default/files/webroot/web/pdf/X.pdf"] := by
  decide

/-- C7.  When the markup cannot be parsed, `extractLinksFromHTML` returns
the empty list rather than an error. -/
theorem extractLinks_parse_failure_empty :
    extractLinksFromHTML none = [] := rfl

theorem fileExists_createFile (fs : FS) (p c : String) :
    fileExists (createFile fs p c) p = true := by
  simp [fileExists, createFile, List.find?]

/-- C8 counterexample: with the destination file initially absent and the
fetch failing, calling the download step twice for the same URL and
destination issues two network fetches, not exactly one — the second call
does not short-circuit, because the failed first call created no file. -/
theorem download_twice_two_fetches_counterexample :
    cexRun1.fetches + cexRun2.fetches = 2 ∧ ¬ cexRun1.fetches + cexRun2.fetches = 1 := by
  decide

/-- C8 amended: if a regular file already exists at the joined destination
path, the call returns success with no fetch and an unchanged filesystem;
and when the destination file is initially absent and the fetch succeeds
with status 200, calling the download step twice performs exactly one fetch
in total (the second call short-circuits on the existence check) and yields
the same final file state as calling it once. -/
theorem download_idempotent (net : String → Except String HTTPResponse) (fs : FS)
    (url dir name : String) :
    (fileExists fs (joinPath dir name) = true →
      downloadPDFFile net fs url dir name = { success := true, fs := fs, fetches := 0 }) ∧
    (∀ resp : HTTPResponse,
      fileExists fs (joinPath dir name) = false → net url = .ok resp → resp.status = 200 →
      (downloadPDFFile net (downloadPDFFile net fs url dir name).fs url dir name).fs
          = (downloadPDFFile net fs url dir name).fs ∧
        (downloadPDFFile net fs url dir name).fetches
            + (downloadPDFFile net (downloadPDFFile net fs url dir name).fs url dir name).fetches
          = 1) := by
  constructor
  · intro hex
    simp [downloadPDFFile, hex]
  · intro resp hex hnet hst
    have h1 : downloadPDFFile net fs url dir name
        = { success := true,
            fs := createFile (mkdirAll fs dir) (joinPath dir name) resp.body,
            fetches := 1 } := by
      simp [downloadPDFFile, hex, hnet, hst]
    have h2 : downloadPDFFile net (downloadPDFFile net fs url dir name).fs url dir name
        = { success := true, fs := (downloadPDFFile net fs url dir name).fs, fetches := 0 } := by
      rw [h1]
      simp [downloadPDFFile, fileExists_createFile]
    rw [h2]
    rw [h1]
    exact ⟨rfl, rfl⟩

/-- Closed instance of the C8 amended claim on a concrete successful run:
two calls, one fetch, identical final state. -/
theorem download_idempotent_witness :
    (downloadPDFFile okNet
        (downloadPDFFile okNet emptyFS "https://a.com/x.pdf" "PDFs" "x.pdf").fs
        "https://a.com/x.pdf" "PDFs" "x.pdf").fs
      = (downloadPDFFile okNet emptyFS "https://a.com/x.pdf" "PDFs" "x.pdf").fs ∧
    (downloadPDFFile okNet emptyFS "https://a.com/x.pdf" "PDFs" "x.pdf").fetches
        + (downloadPDFFile okNet
            (downloadPDFFile okNet emptyFS "https://a.com/x.pdf" "PDFs" "x.pdf").fs
            "https://a.com/x.pdf" "PDFs" "x.pdf").fetches
      = 1 :=
  (download_idempotent okNet emptyFS "https://a.com/x.pdf" "PDFs" "x.pdf").2
    { status := 200, body := "%PDF" } (by decide) rfl rfl

/-- C10.  On a non-200 response the call returns an error having issued its
single fetch but written nothing: the filesystem is returned unchanged, so
neither the destination directory nor the destination file was created. -/
theorem download_non200_no_write (net : String → Except String HTTPResponse) (fs : FS)
    (url dir name : String) (resp : HTTPResponse)
    (hex : fileExists fs (joinPath dir name) = false)
    (hnet : net url = .ok resp) (hst : resp.status ≠ 200) :
    downloadPDFFile net fs url dir name = { success := false, fs := fs, fetches := 1 } := by
  simp [downloadPDFFile, hex, hnet, hst]

/-- Closed instance of C10 at a concrete 404 run: error, unchanged
filesystem, one fetch. -/
theorem download_non200_no_write_witness :
    downloadPDFFile notFoundNet emptyFS "https://a.com/x.pdf" "PDFs" "x.pdf"
      = { success := false, fs := emptyFS, fetches := 1 } :=
  download_non200_no_write notFoundNet emptyFS "https://a.com/x.pdf" "PDFs" "x.pdf"
    { status := 404, body := "not found" } (by decide) rfl (by decide)

theorem pool_invariant (tasks : List String) (w : Nat) (hW : 1 ≤ w)
    (s : PoolState) (h : PoolReaches (initPool tasks w) s) :
    s.consumed ++ s.queue = tasks ∧ (s.active = 0 → s.queue = []) := by
  induction h with
  | refl =>
    refine ⟨rfl, fun h0 => ?_⟩
    dsimp only [initPool] at h0
    omega
  | tail _ step ih =>
    cases step with
    | take t rest done a ha =>
      obtain ⟨hsum, _⟩ := ih
      constructor
      · simpa [List.append_assoc] using hsum
      · intro h0
        dsimp only at h0
        omega
    | exit a done =>
      obtain ⟨hsum, _⟩ := ih
      exact ⟨hsum, fun _ => rfl⟩

/-- C9.  For every task list (any K ≥ 0) and worker count W ≥ 1, whenever
`wg.Wait` returns — that is, whenever the pool reaches a state with every
worker exited — the channel is drained and the consumed list is exactly the
task list: each enqueued URL was received by exactly one worker, K download
attempts were made in total, and completion is signalled only then. -/
theorem worker_pool_processes_all (tasks : List String) (w : Nat) (hW : 1 ≤ w)
    (s : PoolState) (h : PoolReaches (initPool tasks w) s) (hdone : s.active = 0) :
    s.consumed = tasks ∧ s.queue = [] ∧ s.consumed.length = tasks.length := by
  obtain ⟨hsum, hq⟩ := pool_invariant tasks w hW s h
  have hqe : s.queue = [] := hq hdone
  rw [hqe, List.append_nil] at hsum
  exact ⟨hsum, hqe, by rw [hsum]⟩

/-- Closed instance of C9: a one-worker pool that takes both tasks and then
exits has consumed exactly the task list. -/
theorem worker_pool_processes_all_witness :
    (PoolState.mk [] 0 ["u1", "u2"]).consumed = ["u1", "u2"] ∧
    (PoolState.mk [] 0 ["u1", "u2"]).queue = [] ∧
    (PoolState.mk [] 0 ["u1", "u2"]).consumed.length = (["u1", "u2"] : List String).length :=
  worker_pool_processes_all ["u1", "u2"] 1 (by decide) (PoolState.mk [] 0 ["u1", "u2"])
    (PoolReaches.tail
      (PoolReaches.tail
        (PoolReaches.tail (PoolReaches.refl (initPool ["u1", "u2"] 1))
          (PoolStep.take "u1" ["u2"] [] 1 (by decide)))
        (PoolStep.take "u2" [] ["u1"] 1 (by decide)))
      (PoolStep.exit 0 ["u1", "u2"]))
    rfl

end BioRad
